import Mathlib

/-!
Shallow embedding of the ReviewTracker data-access layer
(`src/editorial_tracker.py`, SQLModel over SQLite) together with proofs
about its operations: `add_item`, `list_items`, `update_item` and
`export_csv` over the single `work_items` table.

Modelling conventions:
* the database session/table is a `List WorkItem` (insertion order = table
  scan order);
* `now_timestamp()` is a clock reading the code only stores and compares,
  so timestamps are modelled as `Nat` and passed explicitly;
* SQL `ORDER BY` over a nullable TEXT column follows SQLite semantics:
  `NULL` compares below every non-null value (so ascending order puts
  nulls first and descending order puts nulls last), and TEXT values
  compare bytewise (BINARY collation), modelled as codepoint-lexicographic
  comparison, with a unique secondary key the result order is exactly the
  lexicographic order on (key, id);
* raising an exception is modelled by an explicit result value
  (`UpdateResult.notFound` for the `ValueError` raised by `update_item`).
-/

namespace ReviewTracker

/-- One row of the `work_items` table: class `WorkItem` of
`src/editorial_tracker.py`, fields in declaration order.  `created_at` and
`updated_at` are clock readings modelled as `Nat`. -/
structure WorkItem where
  id : Nat
  title : String
  reference_id : Option String
  role : Option String
  venue : Option String
  due_date : Option String
  status : Option String
  decision : Option String
  notes : Option String
  created_at : Nat
  updated_at : Nat
deriving DecidableEq

/-- Codepoint-lexicographic comparison of character lists: the order SQLite
BINARY collation gives to (ASCII) TEXT values. -/
def charListLt : List Char → List Char → Bool
  | _, [] => false
  | [], _ :: _ => true
  | a :: as, b :: bs => decide (a.toNat < b.toNat) || (a == b && charListLt as bs)

/-- Strict comparison of two TEXT values. -/
def strLt (a b : String) : Bool := charListLt a.data b.data

/-- Value of one column of one row, as SQLite orders it: either an INTEGER
or a (nullable) TEXT value. -/
inductive ColVal where
  | intv : Nat → ColVal
  | strv : Option String → ColVal
deriving DecidableEq

/-- SQLite comparison of two column values: `NULL` sorts below everything,
INTEGER below TEXT, TEXT bytewise. -/
def valLt : ColVal → ColVal → Bool
  | ColVal.intv a, ColVal.intv b => decide (a < b)
  | ColVal.intv _, ColVal.strv none => false
  | ColVal.intv _, ColVal.strv (some _) => true
  | ColVal.strv none, ColVal.intv _ => true
  | ColVal.strv none, ColVal.strv none => false
  | ColVal.strv none, ColVal.strv (some _) => true
  | ColVal.strv (some _), ColVal.intv _ => false
  | ColVal.strv (some _), ColVal.strv none => false
  | ColVal.strv (some a), ColVal.strv (some b) => strLt a b

/-- Field names of `WorkItem` in declaration order: what
`model_dump().keys()` yields, used by `export_csv` as the CSV header. -/
def headerRow : List String :=
  ["id", "title", "reference_id", "role", "venue", "due_date", "status",
   "decision", "notes", "created_at", "updated_at"]

/-- Column selected by `getattr(WorkItem, sort_by, WorkItem.due_date)` in
`list_items`: each of the 11 model field names selects its own column.  For
a name that is no attribute of the class at all, `getattr` falls back to
`WorkItem.due_date`; for the remaining class attributes that are not
columns (`model_dump`, `metadata`, `__tablename__`, ...), the real code's
`order_column.asc()` raises `AttributeError` — the program crashes rather
than sorting.  That crash path is not modelled: this function maps every
name outside the 11 field names to the `due_date` column, and no theorem
below relies on the ordering it yields outside the 11 field names. -/
def colValue (sb : String) (w : WorkItem) : ColVal :=
  if sb = "id" then ColVal.intv w.id
  else if sb = "title" then ColVal.strv (some w.title)
  else if sb = "reference_id" then ColVal.strv w.reference_id
  else if sb = "role" then ColVal.strv w.role
  else if sb = "venue" then ColVal.strv w.venue
  else if sb = "due_date" then ColVal.strv w.due_date
  else if sb = "status" then ColVal.strv w.status
  else if sb = "decision" then ColVal.strv w.decision
  else if sb = "notes" then ColVal.strv w.notes
  else if sb = "created_at" then ColVal.intv w.created_at
  else if sb = "updated_at" then ColVal.intv w.updated_at
  else ColVal.strv w.due_date

/-- Row order realised by `ORDER BY col ASC|DESC, id ASC` of `list_items`:
primary key is the selected column (direction per `asc`), ties broken by
ascending `id`. -/
def rowLe (sb : String) (asc : Bool) (a b : WorkItem) : Bool :=
  (if asc then valLt (colValue sb a) (colValue sb b)
   else valLt (colValue sb b) (colValue sb a)) ||
  ((colValue sb a == colValue sb b) && decide (a.id ≤ b.id))

/-- Stable insertion of `x` into `l`, placing `x` before the first element
it is `le`-below-or-tied-with. -/
def insertLe {α : Type} (le : α → α → Bool) (x : α) : List α → List α
  | [] => [x]
  | y :: ys => if le x y then x :: y :: ys else y :: insertLe le x ys

/-- Stable insertion sort, modelling the row order an `ORDER BY` returns. -/
def insertionSort {α : Type} (le : α → α → Bool) : List α → List α
  | [] => []
  | x :: xs => insertLe le x (insertionSort le xs)

/-- `.upper()` applied to a string, mapping every character to upper case. -/
def strUpper (s : String) : String := ⟨s.data.map Char.toUpper⟩

/-- The optional exact-match status filter of `list_items`: Python
`if status:` treats both `None` and the empty string as "no filter". -/
def statusFilter (store : List WorkItem) (status : Option String) : List WorkItem :=
  match status with
  | none => store
  | some s => if s = "" then store else store.filter (fun w => w.status == some s)

/-- `list_items(session, status, sort_by, sort_order)`: all rows matching
the optional status filter, ordered by the `getattr`-selected column
(descending exactly when `sort_order.upper() == "DESC"`) with `id`
ascending as tie-break. -/
def list_items (store : List WorkItem) (status : Option String)
    (sort_by : String) (sort_order : String) : List WorkItem :=
  insertionSort (rowLe sort_by (!(strUpper sort_order == "DESC")))
    (statusFilter store status)

/-- Row order of the `export_csv` query `ORDER BY due_date` (ascending,
no tie-break: tied rows keep table order, which the stable sort realises). -/
def dueOnlyLe (a b : WorkItem) : Bool :=
  !(valLt (ColVal.strv b.due_date) (ColVal.strv a.due_date))

/-- Rendering of one cell by `csv.writer`: `None` becomes the empty
string. -/
def cellOpt : Option String → String
  | none => ""
  | some s => s

/-- One CSV data row: `getattr(item, h)` for each header name in
declaration order. -/
def itemRow (w : WorkItem) : List String :=
  [toString w.id, w.title, cellOpt w.reference_id, cellOpt w.role,
   cellOpt w.venue, cellOpt w.due_date, cellOpt w.status, cellOpt w.decision,
   cellOpt w.notes, toString w.created_at, toString w.updated_at]

/-- `export_csv(session, path)`: the list of CSV records written.  The rows
are fetched sorted by `due_date`; if there are none the function returns
before opening the file (no output at all), otherwise it writes a header
row of the field names followed by one row per record. -/
def export_csv (store : List WorkItem) : List (List String) :=
  let items := insertionSort dueOnlyLe store
  if items.isEmpty then [] else headerRow :: items.map itemRow

/-- Primary-key value SQLite assigns to a fresh row (next rowid). -/
def next_id (store : List WorkItem) : Nat :=
  store.foldr (fun w acc => max w.id acc) 0 + 1

/-- `add_item(session, *, title, ...)`: unconditionally inserts a new row
with both timestamps set to the current time.  The source performs no
validation of any field. -/
def add_item (store : List WorkItem) (title : String)
    (reference_id role venue due_date status decision notes : Option String)
    (now : Nat) : List WorkItem :=
  store ++ [⟨next_id store, title, reference_id, role, venue, due_date,
            status, decision, notes, now, now⟩]

/-- The `**fields` keyword arguments of `update_item`: one optional value
per `WorkItem` attribute (a key that is not an attribute is skipped by the
`hasattr` guard and is not representable here). -/
structure UpdateFields where
  id : Option Nat
  title : Option String
  reference_id : Option String
  role : Option String
  venue : Option String
  due_date : Option String
  status : Option String
  decision : Option String
  notes : Option String
  created_at : Option Nat
  updated_at : Option Nat
deriving DecidableEq

/-- `updates_made` of `update_item`: whether any supplied field value is
non-null. -/
def fieldsSupplied (f : UpdateFields) : Bool :=
  f.id.isSome || f.title.isSome || f.reference_id.isSome || f.role.isSome ||
  f.venue.isSome || f.due_date.isSome || f.status.isSome || f.decision.isSome ||
  f.notes.isSome || f.created_at.isSome || f.updated_at.isSome

/-- One `setattr` of the update loop on a nullable column: a non-null
supplied value overwrites the stored one, a null value leaves it alone. -/
def setOpt (new old : Option String) : Option String :=
  match new with
  | some v => some v
  | none => old

/-- The `setattr` loop of `update_item`: every non-null supplied field
overwrites the row's attribute, null or absent fields leave it unchanged. -/
def applyFields (w : WorkItem) (f : UpdateFields) : WorkItem :=
  { id := f.id.getD w.id
    title := f.title.getD w.title
    reference_id := setOpt f.reference_id w.reference_id
    role := setOpt f.role w.role
    venue := setOpt f.venue w.venue
    due_date := setOpt f.due_date w.due_date
    status := setOpt f.status w.status
    decision := setOpt f.decision w.decision
    notes := setOpt f.notes w.notes
    created_at := f.created_at.getD w.created_at
    updated_at := f.updated_at.getD w.updated_at }

/-- Outcome of `update_item`: the Python function either returns normally
or raises `ValueError("Item with ID {id} not found.")`. -/
inductive UpdateResult where
  | ok : UpdateResult
  | notFound : Nat → UpdateResult
deriving DecidableEq

/-- Result of running `update_item`: the returned/raised outcome together
with the table contents afterwards. -/
structure UpdateOutcome where
  result : UpdateResult
  store : List WorkItem
deriving DecidableEq

/-- Commit of the mutated row: the first row with the given primary key is
replaced, every other row is untouched. -/
def replaceFirstById : List WorkItem → Nat → WorkItem → List WorkItem
  | [], _, _ => []
  | w :: ws, i, w2 => if w.id == i then w2 :: ws else w :: replaceFirstById ws i w2

/-- `update_item(session, item_id, **fields)`: `session.get` the row by
primary key, raise if absent; apply every non-null supplied field; only if
at least one was applied, stamp `updated_at` with the current time and
commit — otherwise return silently with nothing written. -/
def update_item (store : List WorkItem) (item_id : Nat) (f : UpdateFields)
    (now : Nat) : UpdateOutcome :=
  match store.find? (fun w => w.id == item_id) with
  | none => ⟨UpdateResult.notFound item_id, store⟩
  | some item =>
      if fieldsSupplied f then
        ⟨UpdateResult.ok,
         replaceFirstById store item_id { applyFields item f with updated_at := now }⟩
      else
        ⟨UpdateResult.ok, store⟩

/-- Null-placement and value order that ascending `due_date` sorting is
claimed to satisfy between any earlier row `a` and later row `b`. -/
def dueAscOk (a b : WorkItem) : Prop :=
  (b.due_date = none → a.due_date = none) ∧
  ∀ x y, a.due_date = some x → b.due_date = some y → strLt y x = false

/-- Null-placement and value order for descending `due_date` sorting. -/
def dueDescOk (a b : WorkItem) : Prop :=
  (a.due_date = none → b.due_date = none) ∧
  ∀ x y, a.due_date = some x → b.due_date = some y → strLt x y = false

/-- An `UpdateFields` value with nothing supplied (`update_item` called
with every keyword argument `None`). -/
def noFields : UpdateFields :=
  ⟨none, none, none, none, none, none, none, none, none, none, none⟩

/-- `update_item` fields supplying only a new title. -/
def titleOnly : UpdateFields :=
  ⟨none, some "New Title", none, none, none, none, none, none, none, none, none⟩

/-- `update_item` fields supplying only a new primary-key value. -/
def idOnly : UpdateFields :=
  ⟨some 2, none, none, none, none, none, none, none, none, none, none⟩

/-- Sample row: id 1, status "invited", no due date. -/
def w1 : WorkItem :=
  ⟨1, "Paper", none, none, none, none, some "invited", none, none, 0, 0⟩

/-- Sample row with a null due date. -/
def wNullDue : WorkItem :=
  ⟨1, "A", none, none, none, none, none, none, none, 0, 0⟩

/-- Sample row with due date 2024-01-01. -/
def wEarlyDue : WorkItem :=
  ⟨2, "B", none, none, none, some "2024-01-01", none, none, none, 0, 0⟩

/-- Sample row: role "Z", due date 2024-01-01. -/
def wRoleZ : WorkItem :=
  ⟨1, "A", none, some "Z", none, some "2024-01-01", none, none, none, 0, 0⟩

/-- Sample row: role "A", due date 2024-02-01. -/
def wRoleA : WorkItem :=
  ⟨2, "B", none, some "A", none, some "2024-02-01", none, none, none, 0, 0⟩

/-- Transitivity of the TEXT comparison. -/
theorem charListLt_trans : ∀ x y z : List Char,
    charListLt x y = true → charListLt y z = true → charListLt x z = true := by
  intro x
  induction x with
  | nil =>
    intro y z hxy hyz
    cases z with
    | nil => cases y <;> simp [charListLt] at hxy hyz
    | cons c cs => simp [charListLt]
  | cons a as ih =>
    intro y z hxy hyz
    cases y with
    | nil => simp [charListLt] at hxy
    | cons b bs =>
      cases z with
      | nil => simp [charListLt] at hyz
      | cons c cs =>
        simp only [charListLt, Bool.or_eq_true, Bool.and_eq_true,
          decide_eq_true_eq, beq_iff_eq] at hxy hyz ⊢
        rcases hxy with h1 | ⟨hab, h1⟩
        · rcases hyz with h2 | ⟨hbc, h2⟩
          · exact Or.inl (Nat.lt_trans h1 h2)
          · exact Or.inl (by rw [← hbc]; exact h1)
        · rcases hyz with h2 | ⟨hbc, h2⟩
          · exact Or.inl (by rw [hab]; exact h2)
          · exact Or.inr ⟨by rw [hab, hbc], ih bs cs h1 h2⟩

/-- Asymmetry of the TEXT comparison. -/
theorem charListLt_asymm : ∀ x y : List Char,
    charListLt x y = true → charListLt y x = false := by
  intro x
  induction x with
  | nil =>
    intro y hxy
    cases y with
    | nil => simp [charListLt] at hxy
    | cons b bs => simp [charListLt]
  | cons a as ih =>
    intro y hxy
    cases y with
    | nil => simp [charListLt] at hxy
    | cons b bs =>
      simp only [charListLt, Bool.or_eq_true, Bool.and_eq_true,
        decide_eq_true_eq, beq_iff_eq] at hxy
      simp only [charListLt, Bool.or_eq_false_iff, Bool.and_eq_false_iff,
        decide_eq_false_iff_not, beq_eq_false_iff_ne, ne_eq]
      rcases hxy with h1 | ⟨hab, h1⟩
      · refine ⟨by omega, Or.inl ?_⟩
        intro hba
        rw [hba] at h1
        omega
      · subst hab
        exact ⟨by omega, Or.inr (ih bs h1)⟩

/-- Connexity: two TEXT values neither of which is below the other are
equal. -/
theorem charListLt_conn : ∀ x y : List Char,
    charListLt x y = false → charListLt y x = false → x = y := by
  intro x
  induction x with
  | nil =>
    intro y hxy _
    cases y with
    | nil => rfl
    | cons b bs => simp [charListLt] at hxy
  | cons a as ih =>
    intro y hxy hyx
    cases y with
    | nil => simp [charListLt] at hyx
    | cons b bs =>
      simp only [charListLt, Bool.or_eq_false_iff, Bool.and_eq_false_iff,
        decide_eq_false_iff_not, beq_eq_false_iff_ne, ne_eq] at hxy hyx
      obtain ⟨hn1, h1⟩ := hxy
      obtain ⟨hn2, h2⟩ := hyx
      have hab : a = b := by
        have : a.toNat = b.toNat := by omega
        exact Char.ext (UInt32.ext (by simpa [Char.toNat] using this))
      subst hab
      rcases h1 with h1 | h1
      · exact absurd rfl h1
      · rcases h2 with h2 | h2
        · exact absurd rfl h2
        · rw [ih bs h1 h2]

/-- The TEXT comparison is irreflexive. -/
theorem charListLt_irrefl : ∀ x : List Char, charListLt x x = false := by
  intro x
  by_cases h : charListLt x x = true
  · exact charListLt_asymm x x h
  · simpa using h

/-- Transitivity of the column-value comparison. -/
theorem valLt_trans : ∀ x y z : ColVal,
    valLt x y = true → valLt y z = true → valLt x z = true := by
  intro x y z hxy hyz
  rcases x with nx | _ | sx <;> rcases y with ny | _ | sy <;>
    rcases z with nz | _ | sz <;>
    simp only [valLt] at hxy hyz ⊢ <;>
    first
      | rfl
      | exact hxy
      | exact hyz
      | exact absurd hxy Bool.false_ne_true
      | exact absurd hyz Bool.false_ne_true
      | (simp only [decide_eq_true_eq] at hxy hyz ⊢
         omega)
      | exact charListLt_trans _ _ _ hxy hyz

/-- Asymmetry of the column-value comparison. -/
theorem valLt_asymm : ∀ x y : ColVal, valLt x y = true → valLt y x = false := by
  intro x y hxy
  rcases x with nx | _ | sx <;> rcases y with ny | _ | sy <;>
    simp only [valLt] at hxy ⊢ <;>
    first
      | rfl
      | exact absurd hxy Bool.false_ne_true
      | (simp only [decide_eq_true_eq] at hxy
         simp only [decide_eq_false_iff_not]
         omega)
      | exact charListLt_asymm _ _ hxy

/-- Connexity: two column values neither of which is below the other are
equal. -/
theorem valLt_conn : ∀ x y : ColVal,
    valLt x y = false → valLt y x = false → x = y := by
  intro x y hxy hyx
  rcases x with nx | _ | sx <;> rcases y with ny | _ | sy <;>
    simp only [valLt] at hxy hyx ⊢ <;>
    first
      | rfl
      | exact absurd hxy.symm Bool.false_ne_true
      | exact absurd hyx.symm Bool.false_ne_true
      | (simp only [decide_eq_false_iff_not] at hxy hyx
         simp only [ColVal.intv.injEq]
         omega)
      | exact congrArg (fun s => ColVal.strv (some s))
          (String.ext (charListLt_conn sx.data sy.data hxy hyx))

/-- Membership of the stable insertion. -/
theorem mem_insertLe {α : Type} (le : α → α → Bool) (x a : α) :
    ∀ l : List α, a ∈ insertLe le x l ↔ a = x ∨ a ∈ l := by
  intro l
  induction l with
  | nil => simp [insertLe]
  | cons y ys ih =>
    by_cases h : le x y = true
    · simp [insertLe, h]
    · simp only [insertLe, if_neg h, List.mem_cons, ih]
      tauto

/-- Membership is preserved by the sort. -/
theorem mem_insertionSort {α : Type} (le : α → α → Bool) (a : α) :
    ∀ l : List α, a ∈ insertionSort le l ↔ a ∈ l := by
  intro l
  induction l with
  | nil => simp [insertionSort]
  | cons x xs ih =>
    simp [insertionSort, mem_insertLe, ih]

/-- Length is preserved by one insertion. -/
theorem length_insertLe {α : Type} (le : α → α → Bool) (x : α) :
    ∀ l : List α, (insertLe le x l).length = l.length + 1 := by
  intro l
  induction l with
  | nil => rfl
  | cons y ys ih =>
    by_cases h : le x y = true
    · simp [insertLe, h]
    · simp [insertLe, h, ih]

/-- Length is preserved by the sort. -/
theorem length_insertionSort {α : Type} (le : α → α → Bool) :
    ∀ l : List α, (insertionSort le l).length = l.length := by
  intro l
  induction l with
  | nil => rfl
  | cons x xs ih => simp [insertionSort, length_insertLe, ih]

/-- Inserting into a `le`-sorted list keeps it sorted, for a total
transitive `le`. -/
theorem pairwise_insertLe {α : Type} (le : α → α → Bool)
    (htrans : ∀ a b c, le a b = true → le b c = true → le a c = true)
    (htot : ∀ a b, le a b = true ∨ le b a = true) (x : α) :
    ∀ l : List α, l.Pairwise (fun a b => le a b = true) →
      (insertLe le x l).Pairwise (fun a b => le a b = true) := by
  intro l
  induction l with
  | nil => intro _; simp [insertLe]
  | cons y ys ih =>
    intro hp
    rw [List.pairwise_cons] at hp
    obtain ⟨hy, hys⟩ := hp
    by_cases hxy : le x y = true
    · rw [insertLe, if_pos hxy]
      refine List.Pairwise.cons ?_ (List.Pairwise.cons hy hys)
      intro b hb
      rcases List.mem_cons.1 hb with rfl | hb
      · exact hxy
      · exact htrans _ _ _ hxy (hy b hb)
    · have hyx : le y x = true := (htot x y).resolve_left hxy
      rw [insertLe, if_neg hxy]
      refine List.Pairwise.cons ?_ (ih hys)
      intro b hb
      rcases (mem_insertLe le x b ys).1 hb with rfl | hb
      · exact hyx
      · exact hy b hb

/-- The sort's output is `le`-sorted, for a total transitive `le`. -/
theorem pairwise_insertionSort {α : Type} (le : α → α → Bool)
    (htrans : ∀ a b c, le a b = true → le b c = true → le a c = true)
    (htot : ∀ a b, le a b = true ∨ le b a = true) :
    ∀ l : List α, (insertionSort le l).Pairwise (fun a b => le a b = true) := by
  intro l
  induction l with
  | nil => simp [insertionSort]
  | cons x xs ih =>
    exact pairwise_insertLe le htrans htot x _ ih

/-- The row order of `list_items` is total. -/
theorem rowLe_total (sb : String) (asc : Bool) (a b : WorkItem) :
    rowLe sb asc a b = true ∨ rowLe sb asc b a = true := by
  by_cases h1 : valLt (colValue sb a) (colValue sb b) = true
  · cases asc
    · exact Or.inr (by simp [rowLe, h1])
    · exact Or.inl (by simp [rowLe, h1])
  · by_cases h2 : valLt (colValue sb b) (colValue sb a) = true
    · cases asc
      · exact Or.inl (by simp [rowLe, h2])
      · exact Or.inr (by simp [rowLe, h2])
    · have hxy : colValue sb a = colValue sb b :=
        valLt_conn _ _ (by simpa using h1) (by simpa using h2)
      rcases Nat.le_total a.id b.id with hle | hle
      · exact Or.inl (by cases asc <;> simp [rowLe, hxy, hle])
      · exact Or.inr (by cases asc <;> simp [rowLe, hxy.symm, hle])

/-- The row order of `list_items` is transitive. -/
theorem rowLe_trans (sb : String) (asc : Bool) (a b c : WorkItem)
    (hab : rowLe sb asc a b = true) (hbc : rowLe sb asc b c = true) :
    rowLe sb asc a c = true := by
  cases asc <;>
    simp only [rowLe, if_true, if_false, Bool.or_eq_true, Bool.and_eq_true,
      beq_iff_eq, decide_eq_true_eq] at hab hbc ⊢
  · rcases hab with h1 | ⟨e1, i1⟩
    · rcases hbc with h2 | ⟨e2, i2⟩
      · exact Or.inl (valLt_trans _ _ _ h2 h1)
      · exact Or.inl (by rw [e2] at h1; exact h1)
    · rcases hbc with h2 | ⟨e2, i2⟩
      · exact Or.inl (by rw [e1]; exact h2)
      · exact Or.inr ⟨by rw [e1, e2], Nat.le_trans i1 i2⟩
  · rcases hab with h1 | ⟨e1, i1⟩
    · rcases hbc with h2 | ⟨e2, i2⟩
      · exact Or.inl (valLt_trans _ _ _ h1 h2)
      · exact Or.inl (by rw [← e2]; exact h1)
    · rcases hbc with h2 | ⟨e2, i2⟩
      · exact Or.inl (by rw [← e1] at h2; exact h2)
      · exact Or.inr ⟨by rw [e1, e2], Nat.le_trans i1 i2⟩

/-- The export row order is total. -/
theorem dueOnlyLe_total (a b : WorkItem) :
    dueOnlyLe a b = true ∨ dueOnlyLe b a = true := by
  by_cases h : valLt (ColVal.strv b.due_date) (ColVal.strv a.due_date) = true
  · right
    simp only [dueOnlyLe, Bool.not_eq_true']
    exact valLt_asymm _ _ h
  · left
    simp only [dueOnlyLe, Bool.not_eq_true']
    simpa using h

/-- The export row order is transitive. -/
theorem dueOnlyLe_trans (a b c : WorkItem)
    (hab : dueOnlyLe a b = true) (hbc : dueOnlyLe b c = true) :
    dueOnlyLe a c = true := by
  simp only [dueOnlyLe, Bool.not_eq_true'] at hab hbc ⊢
  by_cases hca : valLt (ColVal.strv c.due_date) (ColVal.strv a.due_date) = true
  · by_cases hbcv : valLt (ColVal.strv b.due_date) (ColVal.strv c.due_date) = true
    · have h := valLt_trans _ _ _ hbcv hca
      rw [hab] at h
      exact absurd h (by simp)
    · have hbceq : ColVal.strv c.due_date = ColVal.strv b.due_date :=
        valLt_conn _ _ hbc (by simpa using hbcv)
      rw [hbceq] at hca
      rw [hab] at hca
      exact absurd hca (by simp)
  · simpa using hca

/-- A successful `find?` splits the list at the first hit. -/
theorem find?_decomp {α : Type} (p : α → Bool) :
    ∀ (l : List α) (w : α), l.find? p = some w →
      ∃ l1 l2, l = l1 ++ w :: l2 ∧ ∀ x ∈ l1, p x = false := by
  intro l
  induction l with
  | nil =>
    intro w h
    simp [List.find?] at h
  | cons a as ih =>
    intro w h
    cases hpa : p a
    · rw [List.find?_cons_of_neg _ (by simp [hpa])] at h
      obtain ⟨l1, l2, rfl, hl1⟩ := ih w h
      refine ⟨a :: l1, l2, rfl, ?_⟩
      intro x hx
      rcases List.mem_cons.1 hx with rfl | hx
      · exact hpa
      · exact hl1 x hx
    · rw [List.find?_cons_of_pos _ hpa] at h
      cases h
      exact ⟨[], as, rfl, by simp⟩

/-- Committing the mutated row rewrites exactly the first row with the
given id. -/
theorem replaceFirstById_append (l1 : List WorkItem) (w : WorkItem)
    (l2 : List WorkItem) (i : Nat) (w2 : WorkItem)
    (hl1 : ∀ x ∈ l1, (x.id == i) = false) (hw : (w.id == i) = true) :
    replaceFirstById (l1 ++ w :: l2) i w2 = l1 ++ w2 :: l2 := by
  induction l1 with
  | nil => simp [replaceFirstById, hw]
  | cons a as ih =>
    have ha : (a.id == i) = false := hl1 a (by simp)
    simp only [List.cons_append, replaceFirstById, ha, Bool.false_eq_true,
      if_false]
    exact congrArg (List.cons a) (ih (fun x hx => hl1 x (by simp [hx])))

/-- Replacing a row by one with the same id leaves the id column of the
table unchanged. -/
theorem map_id_replaceFirstById :
    ∀ (l : List WorkItem) (i : Nat) (w2 : WorkItem), w2.id = i →
      (replaceFirstById l i w2).map WorkItem.id = l.map WorkItem.id := by
  intro l
  induction l with
  | nil => intro i w2 _; rfl
  | cons a as ih =>
    intro i w2 hw2
    cases ha : (a.id == i)
    · simp only [replaceFirstById, ha, Bool.false_eq_true, if_false,
        List.map_cons]
      rw [ih i w2 hw2]
    · have : a.id = i := by simpa using ha
      simp [replaceFirstById, ha, hw2, this]

/-- The column selected by the name "due_date". -/
theorem colValue_due_date (w : WorkItem) :
    colValue "due_date" w = ColVal.strv w.due_date := rfl

/-- Evaluation of `update_item` when no row has the requested id. -/
theorem update_item_of_find_none (store : List WorkItem) (item_id : Nat)
    (f : UpdateFields) (now : Nat)
    (h : store.find? (fun w => w.id == item_id) = none) :
    update_item store item_id f now =
      ⟨UpdateResult.notFound item_id, store⟩ := by
  unfold update_item
  split
  · rfl
  · next item heq =>
    rw [h] at heq
    cases heq

/-- Evaluation of `update_item` when the row is found and at least one
field is supplied. -/
theorem update_item_of_find_some_pos (store : List WorkItem) (item_id : Nat)
    (f : UpdateFields) (now : Nat) (item : WorkItem)
    (h : store.find? (fun w => w.id == item_id) = some item)
    (hs : fieldsSupplied f = true) :
    update_item store item_id f now =
      ⟨UpdateResult.ok, replaceFirstById store item_id
        { applyFields item f with updated_at := now }⟩ := by
  unfold update_item
  split
  · next heq =>
    rw [h] at heq
    cases heq
  · next item2 heq =>
    rw [h] at heq
    cases heq
    rw [if_pos hs]

/-- Evaluation of `update_item` when the row is found but no field is
supplied. -/
theorem update_item_of_find_some_neg (store : List WorkItem) (item_id : Nat)
    (f : UpdateFields) (now : Nat) (item : WorkItem)
    (h : store.find? (fun w => w.id == item_id) = some item)
    (hs : fieldsSupplied f = false) :
    update_item store item_id f now = ⟨UpdateResult.ok, store⟩ := by
  unfold update_item
  split
  · next heq =>
    rw [h] at heq
    cases heq
  · next item2 heq =>
    rw [h] at heq
    cases heq
    simp [hs]

/-- Sort order "ASC" is not the descending marker. -/
theorem asc_marker : (!(strUpper "ASC" == "DESC")) = true := by decide

/-- Sort order "DESC" is the descending marker. -/
theorem desc_marker : (!(strUpper "DESC" == "DESC")) = false := by decide

/-- An ascending `due_date` row order between neighbours implies the
claimed null placement and value order for ascending sorts. -/
theorem rowLe_due_asc_imp (a b : WorkItem)
    (h : rowLe "due_date" true a b = true) : dueAscOk a b := by
  have h' : (valLt (ColVal.strv a.due_date) (ColVal.strv b.due_date) ||
      ((ColVal.strv a.due_date == ColVal.strv b.due_date) &&
        decide (a.id ≤ b.id))) = true := by
    simpa only [rowLe, if_true, colValue_due_date] using h
  constructor
  · intro hb
    rw [hb] at h'
    rcases ha : a.due_date with _ | sa
    · rfl
    · rw [ha] at h'
      simp [valLt] at h'
  · intro x y hx hy
    rw [hx, hy] at h'
    simp only [valLt, Bool.or_eq_true, Bool.and_eq_true, beq_iff_eq,
      ColVal.strv.injEq, Option.some.injEq] at h'
    rcases h' with hlt | ⟨heq, _⟩
    · exact charListLt_asymm _ _ hlt
    · rw [heq]
      exact charListLt_irrefl _

/-- A descending `due_date` row order between neighbours implies the
claimed null placement and value order for descending sorts. -/
theorem rowLe_due_desc_imp (a b : WorkItem)
    (h : rowLe "due_date" false a b = true) : dueDescOk a b := by
  have h' : (valLt (ColVal.strv b.due_date) (ColVal.strv a.due_date) ||
      ((ColVal.strv a.due_date == ColVal.strv b.due_date) &&
        decide (a.id ≤ b.id))) = true := by
    simpa only [rowLe, if_false, colValue_due_date] using h
  constructor
  · intro ha
    rw [ha] at h'
    rcases hb : b.due_date with _ | sb
    · rfl
    · rw [hb] at h'
      simp [valLt] at h'
  · intro x y hx hy
    rw [hx, hy] at h'
    simp only [valLt, Bool.or_eq_true, Bool.and_eq_true, beq_iff_eq,
      ColVal.strv.injEq, Option.some.injEq] at h'
    rcases h' with hlt | ⟨heq, _⟩
    · exact charListLt_asymm _ _ hlt
    · rw [heq]
      exact charListLt_irrefl _

/-- The export row order between neighbours implies the claimed null
placement and value order for the (ascending) export sort. -/
theorem dueOnlyLe_imp (a b : WorkItem) (h : dueOnlyLe a b = true) :
    dueAscOk a b := by
  simp only [dueOnlyLe, Bool.not_eq_true'] at h
  constructor
  · intro hb
    rw [hb] at h
    rcases ha : a.due_date with _ | sa
    · rfl
    · rw [ha] at h
      simp [valLt] at h
  · intro x y hx hy
    rw [hx, hy] at h
    exact h

/-- C1 (corrected): an update of an existing record with no non-null
fields supplied is silently ignored, not rejected: `update_item` returns
normally (no error of any kind is raised) and the table — in particular
the record and its `updated_at` timestamp — is left completely unchanged. -/
theorem update_item_no_fields_silent (store : List WorkItem) (item_id : Nat)
    (f : UpdateFields) (now : Nat) (w : WorkItem)
    (hfind : store.find? (fun x => x.id == item_id) = some w)
    (hsup : fieldsSupplied f = false) :
    update_item store item_id f now = ⟨UpdateResult.ok, store⟩ :=
  update_item_of_find_some_neg store item_id f now w hfind hsup

/-- C1 witness: the no-op update of the existing record 1 returns ok and
leaves the store unchanged. -/
theorem update_item_no_fields_silent_witness :
    update_item [w1] 1 noFields 99 = ⟨UpdateResult.ok, [w1]⟩ :=
  update_item_no_fields_silent [w1] 1 noFields 99 w1 (by decide) (by decide)

/-- C1 counterexample: updating existing record 1 with every field null
does not fail — the result is the ok outcome, with the store unchanged —
refuting the claim that such a call fails with a `ValidationError`. -/
theorem update_item_no_fields_not_an_error :
    (update_item [w1] 1 noFields 99).result = UpdateResult.ok ∧
    (update_item [w1] 1 noFields 99).store = [w1] := by decide

/-- C2 (corrected): `add_item` performs no validation at all: for every
input, including an empty title, it succeeds and appends exactly one row
holding the supplied field values verbatim with both timestamps set to the
current time. -/
theorem add_item_never_validates (store : List WorkItem) (title : String)
    (r ro v d st de no : Option String) (now : Nat) :
    ∃ w : WorkItem, add_item store title r ro v d st de no now = store ++ [w] ∧
      w.title = title ∧ w.reference_id = r ∧ w.role = ro ∧ w.venue = v ∧
      w.due_date = d ∧ w.status = st ∧ w.decision = de ∧ w.notes = no ∧
      w.created_at = now ∧ w.updated_at = now :=
  ⟨_, rfl, rfl, rfl, rfl, rfl, rfl, rfl, rfl, rfl, rfl, rfl⟩

/-- C2 counterexample: adding a record with an empty title inserts a row
(with the empty title), refuting the claim that `add_item` fails with a
`ValidationError` and inserts nothing when the title is empty. -/
theorem add_item_empty_title_inserted :
    (add_item [] "" none none none none none none none 7).length = 1 ∧
    (add_item [] "" none none none none none none none 7).map
      WorkItem.title = [""] := by decide

/-- C3 (corrected): under SQLite null ordering, rows with a null
`due_date` sort FIRST in ascending order and last in descending order; in
both directions the non-null dates are correctly ordered (earliest first
ascending, latest first descending), and the export sort (ascending by
`due_date`) likewise places null dates first. -/
theorem list_items_due_date_null_placement (store : List WorkItem)
    (status : Option String) :
    (list_items store status "due_date" "ASC").Pairwise dueAscOk ∧
    (list_items store status "due_date" "DESC").Pairwise dueDescOk ∧
    (insertionSort dueOnlyLe store).Pairwise dueAscOk := by
  refine ⟨?_, ?_, ?_⟩
  · unfold list_items
    rw [asc_marker]
    exact (pairwise_insertionSort _ (rowLe_trans _ _) (rowLe_total _ _) _).imp
      (fun h => rowLe_due_asc_imp _ _ h)
  · unfold list_items
    rw [desc_marker]
    exact (pairwise_insertionSort _ (rowLe_trans _ _) (rowLe_total _ _) _).imp
      (fun h => rowLe_due_desc_imp _ _ h)
  · exact (pairwise_insertionSort _ dueOnlyLe_trans dueOnlyLe_total _).imp
      (fun h => dueOnlyLe_imp _ _ h)

/-- C3 witness: the null-placement property instantiated at a concrete
two-row store. -/
theorem list_items_due_date_null_placement_witness :
    (list_items [wNullDue, wEarlyDue] none "due_date" "ASC").Pairwise dueAscOk ∧
    (list_items [wNullDue, wEarlyDue] none "due_date" "DESC").Pairwise dueDescOk ∧
    (insertionSort dueOnlyLe [wNullDue, wEarlyDue]).Pairwise dueAscOk :=
  list_items_due_date_null_placement [wNullDue, wEarlyDue] none

/-- C3 counterexample: sorting ascending by `due_date` returns the
null-dated row FIRST and the dated row after it, refuting the claim that
null sort keys are placed after all non-null keys regardless of
direction. -/
theorem list_items_asc_places_null_first :
    (list_items [wNullDue, wEarlyDue] none "due_date" "ASC").map
      WorkItem.due_date = [none, some "2024-01-01"] := by decide

/-- C4 (corrected): `sort_by` is not restricted to the five-name
allow-list: `getattr` accepts every one of the 11 model field names (also
id, role, decision, notes, created_at, updated_at), and the result is
ordered by exactly the requested column — direction per `sort_order`, with
ascending id as tie-break — instead of falling back to `due_date`.  (For a
name outside the field names the code either falls back, when the name is
no class attribute, or crashes with `AttributeError` on a non-column class
attribute; the theorem therefore asserts nothing outside the field
names.) -/
theorem list_items_sorts_by_any_field_name (sb : String)
    (hsb : sb ∈ headerRow) (store : List WorkItem) (status : Option String)
    (sort_order : String) :
    (list_items store status sb sort_order).Pairwise
      (fun a b => rowLe sb (!(strUpper sort_order == "DESC")) a b = true) := by
  unfold list_items
  exact pairwise_insertionSort _ (rowLe_trans _ _) (rowLe_total _ _) _

/-- C4 witness: sorting by "role" — a field name outside the claimed
allow-list — yields a listing ordered by the role column. -/
theorem list_items_sorts_by_any_field_name_witness :
    (list_items [wRoleZ, wRoleA] none "role" "ASC").Pairwise
      (fun a b => rowLe "role" (!(strUpper "ASC" == "DESC")) a b = true) :=
  list_items_sorts_by_any_field_name "role" (by decide) [wRoleZ, wRoleA]
    none "ASC"

/-- C4 counterexample: "role" is outside the claimed allow-list
{title, venue, due_date, reference_id, status}, yet sorting by it does not
fall back to `due_date` — the two orders differ on this store. -/
theorem list_items_role_does_not_fall_back :
    list_items [wRoleZ, wRoleA] none "role" "ASC" ≠
      list_items [wRoleZ, wRoleA] none "due_date" "ASC" := by decide

/-- C5: updating an id that matches no record fails with the not-found
error (the `ValueError` raised by `update_item`, surfaced as
`NotFoundError`/404 by the callers). -/
theorem update_item_missing_id_not_found (store : List WorkItem)
    (item_id : Nat) (f : UpdateFields) (now : Nat)
    (h : ∀ w ∈ store, w.id ≠ item_id) :
    (update_item store item_id f now).result = UpdateResult.notFound item_id := by
  have hf : store.find? (fun w => w.id == item_id) = none := by
    rw [List.find?_eq_none]
    intro x hx
    simp [h x hx]
  rw [update_item_of_find_none store item_id f now hf]

/-- C5 witness: updating id 5 in a store holding only id 1 yields the
not-found error. -/
theorem update_item_missing_id_not_found_witness :
    (update_item [w1] 5 noFields 3).result = UpdateResult.notFound 5 :=
  update_item_missing_id_not_found [w1] 5 noFields 3 (by decide)

/-- C6: a successful update changes exactly the record with the given id:
each field supplied with a non-null value takes the supplied value, each
field supplied as null (or not supplied) retains its prior value,
`updated_at` is set to the current time, and every other record of the
store is untouched. -/
theorem update_item_applies_supplied_fields (store : List WorkItem)
    (item_id : Nat) (f : UpdateFields) (now : Nat) (w : WorkItem)
    (hfind : store.find? (fun x => x.id == item_id) = some w)
    (hsup : fieldsSupplied f = true) :
    ∃ l1 l2 w2,
      store = l1 ++ w :: l2 ∧
      (update_item store item_id f now).result = UpdateResult.ok ∧
      (update_item store item_id f now).store = l1 ++ w2 :: l2 ∧
      w2.title = f.title.getD w.title ∧
      w2.reference_id = setOpt f.reference_id w.reference_id ∧
      w2.role = setOpt f.role w.role ∧
      w2.venue = setOpt f.venue w.venue ∧
      w2.due_date = setOpt f.due_date w.due_date ∧
      w2.status = setOpt f.status w.status ∧
      w2.decision = setOpt f.decision w.decision ∧
      w2.notes = setOpt f.notes w.notes ∧
      w2.created_at = f.created_at.getD w.created_at ∧
      w2.updated_at = now := by
  obtain ⟨l1, l2, hstore, hl1⟩ := find?_decomp _ store w hfind
  have hw0 := List.find?_some hfind
  have hw : (w.id == item_id) = true := hw0
  rw [update_item_of_find_some_pos store item_id f now w hfind hsup]
  refine ⟨l1, l2, { applyFields w f with updated_at := now }, hstore, rfl, ?_,
    rfl, rfl, rfl, rfl, rfl, rfl, rfl, rfl, rfl, rfl⟩
  rw [hstore]
  exact replaceFirstById_append l1 w l2 item_id _ hl1 hw

/-- C6 witness: updating record 1's title alone keeps every other field
and stamps `updated_at`. -/
theorem update_item_applies_supplied_fields_witness :
    ∃ l1 l2 w2,
      [w1] = l1 ++ w1 :: l2 ∧
      (update_item [w1] 1 titleOnly 9).result = UpdateResult.ok ∧
      (update_item [w1] 1 titleOnly 9).store = l1 ++ w2 :: l2 ∧
      w2.title = titleOnly.title.getD w1.title ∧
      w2.reference_id = setOpt titleOnly.reference_id w1.reference_id ∧
      w2.role = setOpt titleOnly.role w1.role ∧
      w2.venue = setOpt titleOnly.venue w1.venue ∧
      w2.due_date = setOpt titleOnly.due_date w1.due_date ∧
      w2.status = setOpt titleOnly.status w1.status ∧
      w2.decision = setOpt titleOnly.decision w1.decision ∧
      w2.notes = setOpt titleOnly.notes w1.notes ∧
      w2.created_at = titleOnly.created_at.getD w1.created_at ∧
      w2.updated_at = 9 :=
  update_item_applies_supplied_fields [w1] 1 titleOnly 9 w1 (by decide)
    (by decide)

/-- C7 (corrected): a record's id is stable under every update whose
supplied fields do not include `id` — but `update_item` will overwrite the
stored id when an `id` field is explicitly supplied, so the id column is
preserved only in the absence of that field. -/
theorem update_item_preserves_row_ids (store : List WorkItem)
    (item_id : Nat) (f : UpdateFields) (now : Nat) (hid : f.id = none) :
    ((update_item store item_id f now).store).map WorkItem.id =
      store.map WorkItem.id := by
  rcases hfind : store.find? (fun w => w.id == item_id) with _ | w
  · rw [update_item_of_find_none store item_id f now hfind]
  · by_cases hs : fieldsSupplied f = true
    · rw [update_item_of_find_some_pos store item_id f now w hfind hs]
      have hw0 := List.find?_some hfind
      have hw : (w.id == item_id) = true := hw0
      have hwid : w.id = item_id := by simpa using hw
      exact map_id_replaceFirstById store item_id _
        (by simp [applyFields, hid, hwid])
    · rw [update_item_of_find_some_neg store item_id f now w hfind
        (by simpa using hs)]

/-- C7 witness: a title-only update leaves the id column unchanged. -/
theorem update_item_preserves_row_ids_witness :
    ((update_item [w1] 1 titleOnly 5).store).map WorkItem.id =
      [w1].map WorkItem.id :=
  update_item_preserves_row_ids [w1] 1 titleOnly 5 rfl

/-- C7 counterexample: updating record 1 with the field `id := 2` changes
the stored record's id from 1 to 2, refuting the claim that no update call
with arbitrary field arguments can alter an existing record's id. -/
theorem update_item_id_field_changes_id :
    ((update_item [w1] 1 idOnly 5).store).map WorkItem.id = [2] ∧
    (update_item [w1] 1 idOnly 5).result = UpdateResult.ok := by decide

/-- C8 (corrected): for every NON-EMPTY status value, `list_items` returns
exactly the records whose status equals that value; the empty string is
excluded because Python's `if status:` treats it as "no filter". -/
theorem list_items_status_filter_exact (store : List WorkItem) (s : String)
    (sort_by sort_order : String) (w : WorkItem) (hs : s ≠ "") :
    w ∈ list_items store (some s) sort_by sort_order ↔
      w ∈ store ∧ w.status = some s := by
  unfold list_items
  rw [mem_insertionSort]
  simp only [statusFilter]
  rw [if_neg hs]
  simp [List.mem_filter]

/-- C8 witness: filtering on "invited" returns exactly the records with
that status. -/
theorem list_items_status_filter_exact_witness :
    w1 ∈ list_items [w1] (some "invited") "due_date" "ASC" ↔
      w1 ∈ [w1] ∧ w1.status = some "invited" :=
  list_items_status_filter_exact [w1] "invited" "due_date" "ASC" w1
    (by decide)

/-- C8 counterexample: filtering on the empty status value returns a
record whose status is "invited", not the empty string — refuting the
claim for every supplied status value. -/
theorem list_items_empty_filter_returns_all :
    w1 ∈ list_items [w1] (some "") "due_date" "ASC" ∧
    w1.status ≠ some "" := by
  constructor
  · decide
  · decide

/-- C9: `export_csv` writes nothing at all for an empty store (no header
row), and for a non-empty store writes the header row of field names in
declaration order followed by exactly one row per record. -/
theorem export_csv_header_and_rows :
    export_csv ([] : List WorkItem) = [] ∧
    ∀ store : List WorkItem, store ≠ [] →
      ∃ rows, export_csv store = headerRow :: rows ∧
        rows.length = store.length := by
  constructor
  · rfl
  · intro store h
    have hlen : (insertionSort dueOnlyLe store).length = store.length :=
      length_insertionSort dueOnlyLe store
    have hne : (insertionSort dueOnlyLe store).isEmpty = false := by
      cases hI : insertionSort dueOnlyLe store with
      | nil =>
        rw [hI] at hlen
        cases store with
        | nil => exact absurd rfl h
        | cons a as => simp at hlen
      | cons a as => rfl
    refine ⟨(insertionSort dueOnlyLe store).map itemRow, ?_, ?_⟩
    · simp [export_csv, hne]
    · rw [List.length_map, hlen]

/-- C9 witness: the empty store exports nothing; a one-row store exports
the header plus one data row. -/
theorem export_csv_header_and_rows_witness :
    export_csv ([] : List WorkItem) = [] ∧
    ∃ rows, export_csv [w1] = headerRow :: rows ∧ rows.length = [w1].length :=
  ⟨export_csv_header_and_rows.1, export_csv_header_and_rows.2 [w1] (by decide)⟩

/-- C10: an update that fails (the only failure is the not-found error)
leaves the entire store unchanged: no record is inserted, modified or
removed. -/
theorem failed_update_leaves_store_unchanged (store : List WorkItem)
    (item_id : Nat) (f : UpdateFields) (now : Nat)
    (h : (update_item store item_id f now).result ≠ UpdateResult.ok) :
    (update_item store item_id f now).store = store := by
  rcases hfind : store.find? (fun w => w.id == item_id) with _ | w
  · rw [update_item_of_find_none store item_id f now hfind]
  · by_cases hs : fieldsSupplied f = true
    · rw [update_item_of_find_some_pos store item_id f now w hfind hs] at h
      exact absurd rfl h
    · rw [update_item_of_find_some_neg store item_id f now w hfind
        (by simpa using hs)]

/-- C10 witness: the failing update of a missing id 5 leaves the store as
it was. -/
theorem failed_update_leaves_store_unchanged_witness :
    (update_item [w1] 5 noFields 3).store = [w1] :=
  failed_update_leaves_store_unchanged [w1] 5 noFields 3 (by decide)

end ReviewTracker
